import Mathlib

/-!
Shallow embedding of the highlight-selection engine of the
Videos-Clipping-Automation repository, together with proofs of the
specification claims about it.

Two source files are embedded:
* `highlight_detection.py` — the transcript-window scoring and clip
  selection pipeline (`split_into_windows`, `score_windows`,
  `select_clips`, `detect_highlights`);
* `src/services/highlight_detector.py` — the `HighlightDetector`
  methods `_process_highlights`, `_generate_evenly_spaced_highlights`,
  `_merge_overlapping_highlights`, `_detect_with_ai_transcript`.

Python floats are modelled as exact rationals (`ℚ`); the float
`sqrt` used by `numpy` inside cosine similarity is an abstract
parameter, and the statistical threshold `mean + 0.5 * std` of
`select_clips` is expressed rationally by squaring (see
`passesThr_iff_sqrt`, which proves the rational form equivalent to the
real-number form with `Real.sqrt`).  Fallible calls are modelled with
`Except`/`Option`.
-/

namespace VCA

/-- Transcript segment as produced by the transcription collaborator:
`{"start": float, "end": float, "text": str}`.  The `end` key is named
`stop` because `end` is a Lean keyword. -/
structure Segment where
  start : ℚ
  stop : ℚ
  text : String
deriving DecidableEq, Repr

/-- Scoring window (`{"start", "end", "text", "score"}` dict in
`split_into_windows` / `score_windows`).  The `score` field is `0`
until `score_windows` fills it. -/
structure Window where
  start : ℚ
  stop : ℚ
  text : String
  score : ℚ
deriving DecidableEq, Repr

/-- Pseudo-word event built by `split_into_windows` (a `{"time", "word"}`
dict). -/
structure WordEv where
  time : ℚ
  word : String
deriving DecidableEq, Repr

/-- Python `str.split()`: split on whitespace, dropping empty pieces. -/
def pySplit (s : String) : List String :=
  (s.split Char.isWhitespace).filter (fun t => t ≠ "")

/-- Python substring test `pat in t` (for non-empty `pat`). -/
def strContains (t pat : String) : Bool :=
  (t.splitOn pat).length ≠ 1

/-- Word events of one segment (`highlight_detection.py` lines 56-63):
the segment duration is divided evenly over its whitespace tokens;
segments with no tokens contribute nothing. -/
def segWords (seg : Segment) : List WordEv :=
  let toks := pySplit seg.text
  if toks.isEmpty then []
  else
    let perWord := (seg.stop - seg.start) / toks.length
    (List.range toks.length).map fun (i : ℕ) =>
      { time := seg.start + (i : ℚ) * perWord, word := toks.get! i }

/-- WINDOW_SIZE constant (20.0 s). -/
def WINDOW_SIZE : ℚ := 20

/-- WINDOW_STEP constant (10.0 s). -/
def WINDOW_STEP : ℚ := 10

/-- One iteration of the window-building while loop: the window starting
at `start` collects the words with `start ≤ time < start + WINDOW_SIZE`. -/
def windowAt (words : List WordEv) (start : ℚ) : Option Window :=
  let txt := " ".intercalate
    ((words.filter fun w => decide (start ≤ w.time ∧ w.time < start + WINDOW_SIZE)).map
      (fun w => w.word))
  if txt = "" then none else some { start := start, stop := start + WINDOW_SIZE, text := txt, score := 0 }

/-- `split_into_windows` (lines 53-77).  The `while start < t_end`
loop advancing by `WINDOW_STEP` is unrolled into the list of start
times `t0 + WINDOW_STEP * k` for `k < ⌈(t_end - t0)/WINDOW_STEP⌉`
(for the positive constant step this is exactly the set of starts the
loop visits). -/
def split_into_windows (segments : List Segment) : List Window :=
  let words := segments.flatMap segWords
  match words with
  | [] => []
  | w0 :: rest =>
    let t0 := w0.time
    let tEnd := ((w0 :: rest).getLast (List.cons_ne_nil w0 rest)).time
    let n : ℕ := (⌈(tEnd - t0) / WINDOW_STEP⌉).toNat
    ((List.range n).map fun k => windowAt words (t0 + WINDOW_STEP * k)).reduceOption

/-- Mean of a list of scores (`numpy.mean`; `0` for the empty list,
which numpy renders as `nan` — the value is never used on an empty
list in a way any claim depends on). -/
def meanQ (l : List ℚ) : ℚ := l.sum / l.length

/-- Population variance of a list of scores (`numpy.std` squared). -/
def varQ (l : List ℚ) : ℚ := ((l.map fun s => (s - meanQ l) ^ 2).sum) / l.length

/-- The quality-threshold test of `select_clips` line 172:
`score >= mean + 0.5 * std` where `std = sqrt(var)`.  Stated
rationally by squaring; `passesThr_iff_sqrt` below proves it equal to
the `Real.sqrt` form. -/
def passesThr (m v s : ℚ) : Bool :=
  decide (m ≤ s ∧ v ≤ 4 * (s - m) ^ 2)

/-- Descending order on window scores used by the Python stable sorts
`sorted(windows, key=lambda w: w["score"], reverse=True)` (lines 177,
182): `insertionSort` with this relation is exactly a stable
descending sort. -/
def scoreDescRel (a b : Window) : Prop := b.score ≤ a.score

instance : DecidableRel scoreDescRel := fun a b =>
  inferInstanceAs (Decidable (b.score ≤ a.score))

/-- Ascending order on clip start times: the final
`selected_clips.sort(key=lambda x: x[0])` (line 253). -/
def startAscRel (a b : ℚ × ℚ) : Prop := a.1 ≤ b.1

instance : DecidableRel startAscRel := fun a b =>
  inferInstanceAs (Decidable (a.1 ≤ b.1))

/-- TARGET_CLIP_SECONDS (40.0). -/
def TARGET_CLIP_SECONDS : ℚ := 40

/-- MIN_CLIP_SECONDS (30.0). -/
def MIN_CLIP_SECONDS : ℚ := 30

/-- MAX_CLIP_SECONDS (60.0). -/
def MAX_CLIP_SECONDS : ℚ := 60

/-- The minimum inter-clip gap `min_gap_seconds = TARGET_CLIP_SECONDS * 1.2`
(line 185); `40.0 * 1.2` rounds to exactly `48.0` in double precision. -/
def MIN_GAP_SECONDS : ℚ := 48

/-- Maximum segment end = `max(seg["end"] for seg in segments)`
(line 158); junk value `0` on the empty list, on which `select_clips`
never calls it. -/
def maxEnd (l : List Segment) : ℚ :=
  match l with
  | [] => 0
  | s :: t => t.foldl (fun a x => max a x.stop) s.stop

/-- Minimum segment start = `min(seg["start"] for seg in segs)`. -/
def minStart (l : List Segment) : ℚ :=
  match l with
  | [] => 0
  | s :: t => t.foldl (fun a x => min a x.start) s.start

/-- The gap check of lines 203-211: every already-accepted clip must be
at least `MIN_GAP_SECONDS` before or after the tentative clip. -/
def hasSufficientGap (acc : List (ℚ × ℚ)) (cs ce : ℚ) : Bool :=
  acc.all fun e => decide (MIN_GAP_SECONDS ≤ cs - e.2 ∨ MIN_GAP_SECONDS ≤ e.1 - ce)

/-- Duration clamp of lines 231-241: a snapped clip `[fs0, fe0]`
shorter than `MIN_CLIP_SECONDS` is re-centered and extended toward
`TARGET_CLIP_SECONDS` (staying inside `[0, vd]`); one longer than
`MAX_CLIP_SECONDS` is truncated to `TARGET_CLIP_SECONDS` keeping its
start. -/
def clampDur (vd fs0 fe0 : ℚ) : ℚ × ℚ :=
  if fe0 - fs0 < MIN_CLIP_SECONDS then
    (max 0 ((fs0 + fe0) / 2 - TARGET_CLIP_SECONDS / 2),
     min vd (max 0 ((fs0 + fe0) / 2 - TARGET_CLIP_SECONDS / 2) + TARGET_CLIP_SECONDS))
  else if MAX_CLIP_SECONDS < fe0 - fs0 then (fs0, fs0 + TARGET_CLIP_SECONDS)
  else (fs0, fe0)

/-- Transcript segments overlapping the tentative clip (lines 215-216). -/
def overlapSegs (segments : List Segment) (cs ce : ℚ) : List Segment :=
  segments.filter fun s => decide (cs < s.stop ∧ s.start < ce)

/-- Transcript segments within the ±3 s extension of the overlapped
span (lines 224-225). -/
def extendedSegs (segments : List Segment) (segStart segEnd : ℚ) : List Segment :=
  segments.filter fun s => decide (segStart - 3 ≤ s.start ∧ s.stop ≤ segEnd + 3)

/-- The clamp-and-final-length-check tail of the snapping logic
(lines 227-245), given the extended segment set. -/
def finalizeFromExt (vd : ℚ) (ext : List Segment) : Option (ℚ × ℚ) :=
  if ext.isEmpty then none
  else if MIN_CLIP_SECONDS ≤
      (clampDur vd (minStart ext) (maxEnd ext)).2 - (clampDur vd (minStart ext) (maxEnd ext)).1
  then some (clampDur vd (minStart ext) (maxEnd ext))
  else none

/-- Lines 214-248: snap the accepted tentative clip `[cs, ce]` to
transcript-segment boundaries, clamp the duration, and keep it only if
still at least `MIN_CLIP_SECONDS` long. -/
def finalizeClip (segments : List Segment) (vd cs ce : ℚ) : Option (ℚ × ℚ) :=
  if (overlapSegs segments cs ce).isEmpty then none
  else
    finalizeFromExt vd
      (extendedSegs segments (minStart (overlapSegs segments cs ce))
        (maxEnd (overlapSegs segments cs ce)))

/-- Tentative clip start of lines 193-200: the clip is centered on the
window midpoint with the target duration and clamped into
`[0, videoDuration]`; the re-clamp of lines 198-200 (unreachable after
the `min` of line 195) is embedded for fidelity. -/
def tentStart (vd : ℚ) (w : Window) : ℚ :=
  let center := (w.start + w.stop) / 2
  let cs0 := max 0 (center - TARGET_CLIP_SECONDS / 2)
  let ce0 := min vd (cs0 + TARGET_CLIP_SECONDS)
  if vd < ce0 then max 0 (vd - TARGET_CLIP_SECONDS) else cs0

/-- Tentative clip end of lines 193-200 (see `tentStart`). -/
def tentEnd (vd : ℚ) (w : Window) : ℚ :=
  let center := (w.start + w.stop) / 2
  let cs0 := max 0 (center - TARGET_CLIP_SECONDS / 2)
  let ce0 := min vd (cs0 + TARGET_CLIP_SECONDS)
  if vd < ce0 then vd else ce0

/-- One iteration of the candidate loop of `select_clips`
(lines 190-250): build the tentative clip around the window center,
apply the gap check against the accepted clips, then snap/clamp and
append on success. -/
def clipStep (segments : List Segment) (vd : ℚ) (acc : List (ℚ × ℚ)) (w : Window) :
    List (ℚ × ℚ) :=
  if hasSufficientGap acc (tentStart vd w) (tentEnd vd w) then
    match finalizeClip segments vd (tentStart vd w) (tentEnd vd w) with
    | some p => acc ++ [p]
    | none => acc
  else acc

/-- The threshold phase of `select_clips` (lines 161-179): keep windows
scoring at least `mean + 0.5 * std`; if none do, fall back to the top
20 % (at least one) of the score-descending order. -/
def thresholdSelect (windows : List Window) : List Window :=
  let scores := windows.map Window.score
  let m := meanQ scores
  let v := varQ scores
  let filt := windows.filter fun w => passesThr m v w.score
  if filt.isEmpty then
    (List.insertionSort scoreDescRel windows).take (max 1 (windows.length / 5))
  else filt

/-- `select_clips` (lines 151-271). -/
def select_clips (windows : List Window) (segments : List Segment) : List (ℚ × ℚ) :=
  if segments.isEmpty then []
  else
    let vd := maxEnd segments
    let quality := List.insertionSort scoreDescRel (thresholdSelect windows)
    let clips := quality.foldl (clipStep segments vd) []
    List.insertionSort startAscRel clips

/-- HIGHLIGHT_PROMPTS (lines 24-30). -/
def HIGHLIGHT_PROMPTS : List String :=
  ["An exciting, entertaining moment perfect for YouTube Shorts with a complete story arc",
   "A surprising or shocking revelation that would grab attention and keep viewers engaged",
   "A funny or humorous moment with setup and payoff that people would want to share",
   "An educational moment explaining something valuable with clear beginning and end",
   "A dramatic or intense moment with buildup and resolution perfect for short-form content"]

/-- Narrative completeness score of one window text (lines 114-137). -/
def narrativeScore (text : String) : ℚ :=
  let tl := text.toLower
  let hit := fun (ws : List String) => ws.any fun p => strContains tl p
  let s1 : ℚ := if hit ["what", "why", "how", "when", "where", "who"] then 0.3 else 0
  let s2 : ℚ := if hit ["because", "so", "therefore", "result", "answer"] then 0.2 else 0
  let s3 : ℚ := if hit ["amazing", "incredible", "shocking", "surprising", "funny", "hilarious"] then 0.2 else 0
  let s4 : ℚ := if hit ["look", "watch", "see", "check", "notice", "observe"] then 0.1 else 0
  let s5 : ℚ := if hit ["finally", "conclusion", "result", "end", "turns out"] then 0.2 else 0
  min (s1 + s2 + s3 + s4 + s5) 1

/-- Dot product of two embedding vectors (`text_embs @ proto`). -/
def dotQ (a b : List ℚ) : ℚ := ((a.zip b).map fun p => p.1 * p.2).sum

/-- Cosine similarity of lines 103: the norms are computed with the
abstract float square root `sqrtQ`, and `1e-8` guards the denominator. -/
def cosSim (sqrtQ : ℚ → ℚ) (t proto : List ℚ) : ℚ :=
  dotQ t proto / (sqrtQ ((t.map fun x => x ^ 2).sum) * sqrtQ ((proto.map fun x => x ^ 2).sum)
    + 1 / 100000000)

/-- Pointwise maximum of similarity rows (`np.maximum.reduce`, line 107). -/
def maxRows (rows : List (List ℚ)) : List ℚ :=
  match rows with
  | [] => []
  | h :: t => t.foldl (fun a b => (a.zip b).map fun p => max p.1 p.2) h

/-- Minimum of a list of rationals, `0` on the empty list. -/
def listMin (l : List ℚ) : ℚ :=
  match l with
  | [] => 0
  | h :: t => t.foldl min h

/-- Maximum of a list of rationals, `0` on the empty list. -/
def listMax (l : List ℚ) : ℚ :=
  match l with
  | [] => 0
  | h :: t => t.foldl max h

/-- `score_windows` (lines 80-148).  The embedding collaborator is
`collab`: `none` models a missing `OPENAI_API_KEY` / unreachable
service, in which case the function raises (line 85); `some embed`
returns one vector per input text.  `sqrtQ` is the float square root
used inside the cosine similarity. -/
def score_windows (collab : Option (List String → List (List ℚ))) (sqrtQ : ℚ → ℚ)
    (windows : List Window) : Except String (List Window) :=
  match collab with
  | none => .error "Set OPENAI_API_KEY in your environment"
  | some embed =>
    let protoEmbs := embed HIGHLIGHT_PROMPTS
    let texts := windows.map Window.text
    let textEmbs := embed texts
    let allSims := protoEmbs.map fun proto => textEmbs.map fun t => cosSim sqrtQ t proto
    let maxSims := maxRows allSims
    let textLengths : List ℚ := windows.map fun w => (w.text.length : ℚ)
    let lmin := listMin textLengths
    let lmax := listMax textLengths
    let lengthScores := textLengths.map fun x => (x - lmin) / (lmax - lmin + 1 / 100000000)
    let narrScores := texts.map narrativeScore
    let finals := ((maxSims.zip lengthScores).zip narrScores).map fun p =>
      0.5 * p.1.1 + 0.3 * p.1.2 + 0.2 * p.2
    .ok ((windows.zip finals).map fun p => { p.1 with score := p.2 })

/-- `detect_highlights` (lines 273-305), with the transcription result
`segments` taken as input and the embedding collaborator abstracted:
empty transcript and empty window list short-circuit to `ok []` before
the scorer is consulted. -/
def detect_highlights (segments : List Segment)
    (collab : Option (List String → List (List ℚ))) (sqrtQ : ℚ → ℚ) :
    Except String (List (ℚ × ℚ)) :=
  if segments.isEmpty then .ok []
  else
    let windows := split_into_windows segments
    if windows.isEmpty then .ok []
    else (score_windows collab sqrtQ windows).map fun sw => select_clips sw segments

/-! Embedding of `src/services/highlight_detector.py` (the
`HighlightDetector` class). -/

/-- Highlight record used throughout `highlight_detector.py`:
`{'start', 'end', 'score', 'type', 'reason'}`. -/
structure Highlight where
  start : ℚ
  stop : ℚ
  score : ℚ
  type : String
  reason : String
deriving DecidableEq, Repr

/-- Ascending start order for `sorted(highlights, key=lambda x: x['start'])`
in `_merge_overlapping_highlights`. -/
def hlStartAscRel (a b : Highlight) : Prop := a.start ≤ b.start

instance : DecidableRel hlStartAscRel := fun a b =>
  inferInstanceAs (Decidable (a.start ≤ b.start))

/-- Descending score order for `valid_highlights.sort(key=lambda x: x['score'],
reverse=True)` (line 342). -/
def hlScoreDescRel (a b : Highlight) : Prop := b.score ≤ a.score

instance : DecidableRel hlScoreDescRel := fun a b =>
  inferInstanceAs (Decidable (b.score ≤ a.score))

/-- Order for the final `valid_highlights.sort(key=lambda x:
(-x.get('score', 0), x['start']))` (line 370): score descending, then
start ascending. -/
def hlFinalRel (a b : Highlight) : Prop :=
  b.score < a.score ∨ (a.score = b.score ∧ a.start ≤ b.start)

instance : DecidableRel hlFinalRel := fun a b =>
  inferInstanceAs (Decidable (b.score < a.score ∨ (a.score = b.score ∧ a.start ≤ b.start)))

/-- `_merge_overlapping_highlights` (lines 400-425): sort by start and
merge any highlight starting within 10 s of the end of the previous
merged one.  The accumulator is kept reversed (its head is Python's
`merged[-1]`). -/
def mergeOverlapping (hs : List Highlight) : List Highlight :=
  ((List.insertionSort hlStartAscRel hs).foldl
    (fun acc cur =>
      match acc with
      | [] => [cur]
      | last :: rest =>
        if cur.start ≤ last.stop + 10 then
          { start := last.start, stop := max last.stop cur.stop,
            score := max last.score cur.score, type := "merged",
            reason := last.reason ++ " + " ++ cur.reason } :: rest
        else cur :: last :: rest) []).reverse

/-- Clamp-and-validate of one merged highlight (lines 323-339): clamp
into `[0, videoDuration - 5]`, keep only if at least 20 s long, and cut
anything longer than 60 s down to 55 s. -/
def clampValid (vd : ℚ) (h : Highlight) : Option Highlight :=
  if 20 ≤ min (vd - 5) h.stop - max 0 h.start then
    some { start := max 0 h.start,
           stop := if 60 < min (vd - 5) h.stop - max 0 h.start then max 0 h.start + 55
                   else min (vd - 5) h.stop,
           score := h.score, type := h.type, reason := h.reason }
  else none

/-- Sorted valid highlights of `_process_highlights` (lines 322-342). -/
def validOf (raw : List Highlight) : ℚ → List Highlight := fun vd =>
  List.insertionSort hlScoreDescRel ((mergeOverlapping raw).filterMap (clampValid vd))

/-- `desired_max = min(100, max(8, int(video_duration / 120)))` (line 345). -/
def desiredMax (vd : ℚ) : ℕ :=
  min 100 (max 8 (⌊vd / 120⌋).toNat)

/-- `_generate_evenly_spaced_highlights` (lines 381-398) for a positive
stride: the `while t <= last_start` loop starting at `t = 10` and
stepping by `stride` visits exactly the starts `10 + stride * k` for
`k ≤ ⌊(last_start - 10) / stride⌋` (both call sites use stride 110). -/
def evenlySpaced (duration segLen stride : ℚ) : List Highlight :=
  if duration ≤ 0 then []
  else
    let lastStart := max 10 (duration - segLen - 5)
    let n : ℕ := (⌊(lastStart - 10) / stride⌋).toNat + 1
    (List.range n).map fun (k : ℕ) =>
      { start := 10 + stride * k, stop := 10 + stride * k + segLen,
        score := 0.45, type := "fallback", reason := "Evenly spaced fallback" }

/-- The overlap test of the backfill loop (lines 354-355):
`not (a['end'] <= b['start'] + 5 or b['end'] <= a['start'] + 5)`. -/
def hlOverlaps (a b : Highlight) : Bool :=
  ! (decide (a.stop ≤ b.start + 5) || decide (b.stop ≤ a.start + 5))

/-- The backfill admission loop body (lines 357-365): walk the fallback
supply, admit each window that does not overlap any existing highlight,
and break as soon as `needed` have been admitted.  `sel` is kept
reversed. -/
def pickGo (needed : ℕ) : List Highlight → List Highlight → List Highlight → List Highlight
  | [], sel, _ => sel.reverse
  | h :: t, sel, ex =>
    if ex.any (fun e => hlOverlaps h e) then
      if needed ≤ sel.length then sel.reverse else pickGo needed t sel ex
    else
      if needed ≤ (h :: sel).length then (h :: sel).reverse
      else pickGo needed t (h :: sel) (h :: ex)

/-- The fallback windows actually admitted by the backfill loop. -/
def pickFallback (needed : ℕ) (fallback existing : List Highlight) : List Highlight :=
  pickGo needed fallback [] existing

/-- `_create_fallback_highlights_with_duration` (lines 432-466). -/
def createFallbackWithDuration (duration : ℚ) : List Highlight :=
  if duration < 120 then
    [{ start := 10, stop := min (duration - 5) 28, score := 0.5, type := "fallback",
       reason := "Default highlight for short video" }]
  else if duration < 600 then
    [{ start := 30, stop := 30 + 28, score := 0.6, type := "fallback",
       reason := "Early highlight" },
     { start := duration / 2, stop := duration / 2 + 30, score := 0.6, type := "fallback",
       reason := "Mid-video highlight" }]
  else evenlySpaced duration 28 110

/-- `_process_highlights` (lines 311-379), non-exception path: merge,
clamp to bounds, sort by score, top up with evenly spaced fallback
windows when fewer than `desired_max` highlights survive, then sort by
`(-score, start)` and cap at `desired_max`. -/
def process_highlights (raw : List Highlight) (vd : ℚ) : List Highlight :=
  if raw.isEmpty then createFallbackWithDuration vd
  else
    (List.insertionSort hlFinalRel
      (if (validOf raw vd).length < desiredMax vd then
        validOf raw vd ++
          pickFallback (desiredMax vd - (validOf raw vd).length) (evenlySpaced vd 28 110)
            (validOf raw vd)
      else validOf raw vd)).take (desiredMax vd)

/-- Raw window of the parsed LLM JSON reply in
`_detect_with_ai_transcript`: `good s e` models an entry whose
`float(w.get('start'))` / `float(w.get('end'))` conversions succeed
with values `s`, `e`; `bad` models an entry on which the conversion
raises and the `except ... continue` skips it (lines 139-151). -/
inductive RawWin where
  | good (s e : ℚ) : RawWin
  | bad : RawWin
deriving DecidableEq, Repr

/-- Validation of one parsed LLM window (lines 139-151): clamp the
proposed times into `[0, videoDuration - 1]` and keep the entry only
when `end > start` and the duration is between 10 and 55 s; a
malformed entry is skipped. -/
def aiClampOne (vd : ℚ) (w : RawWin) : Option Highlight :=
  match w with
  | .bad => none
  | .good s0 e0 =>
    if max 0 s0 < min (vd - 1) e0 ∧ 10 ≤ min (vd - 1) e0 - max 0 s0
        ∧ min (vd - 1) e0 - max 0 s0 ≤ 55 then
      some { start := max 0 s0, stop := min (vd - 1) e0, score := 0.9, type := "ai",
             reason := "AI-selected highlight" }
    else none

/-- The candidate-validation tail of `_detect_with_ai_transcript`
(lines 137-153): validate every window of the parsed LLM reply and
return at most 40 results. -/
def detectWithAiTranscript (vd : ℚ) (ws : List RawWin) : List Highlight :=
  (ws.filterMap (aiClampOne vd)).take 40

/-! Helper lemmas about the fold-based minimum/maximum of segment
boundaries. -/

lemma foldl_min_start_ge {c : ℚ} :
    ∀ (t : List Segment) (a : ℚ), c ≤ a → (∀ s ∈ t, c ≤ s.start) →
      c ≤ t.foldl (fun b x => min b x.start) a := by
  intro t
  induction t with
  | nil => exact fun a ha _ => ha
  | cons s t ih =>
    intro a ha hall
    exact ih (min a s.start) (le_min ha (hall s (by simp)))
      (fun x hx => hall x (by simp [hx]))

lemma minStart_ge {c : ℚ} {l : List Segment} (hne : ¬ l.isEmpty)
    (h : ∀ s ∈ l, c ≤ s.start) : c ≤ minStart l := by
  cases l with
  | nil => simp at hne
  | cons s t =>
    exact foldl_min_start_ge t s.start (h s (by simp)) (fun x hx => h x (by simp [hx]))

lemma foldl_max_stop_le {c : ℚ} :
    ∀ (t : List Segment) (a : ℚ), a ≤ c → (∀ s ∈ t, s.stop ≤ c) →
      t.foldl (fun b x => max b x.stop) a ≤ c := by
  intro t
  induction t with
  | nil => exact fun a ha _ => ha
  | cons s t ih =>
    intro a ha hall
    exact ih (max a s.stop) (max_le ha (hall s (by simp)))
      (fun x hx => hall x (by simp [hx]))

lemma maxEnd_le {c : ℚ} {l : List Segment} (hne : ¬ l.isEmpty)
    (h : ∀ s ∈ l, s.stop ≤ c) : maxEnd l ≤ c := by
  cases l with
  | nil => simp at hne
  | cons s t =>
    exact foldl_max_stop_le t s.stop (h s (by simp)) (fun x hx => h x (by simp [hx]))

lemma le_foldl_max_stop :
    ∀ (t : List Segment) (a : ℚ), a ≤ t.foldl (fun b x => max b x.stop) a := by
  intro t
  induction t with
  | nil => exact fun a => le_refl a
  | cons s t ih =>
    exact fun a => le_trans (le_max_left a s.stop) (ih (max a s.stop))

lemma mem_foldl_max_stop {s : Segment} :
    ∀ (t : List Segment) (a : ℚ), s ∈ t → s.stop ≤ t.foldl (fun b x => max b x.stop) a := by
  intro t
  induction t with
  | nil => intro a hs; simp at hs
  | cons x t ih =>
    intro a hs
    rcases List.mem_cons.1 hs with h | h
    · subst h
      exact le_trans (le_max_right a s.stop) (le_foldl_max_stop t (max a s.stop))
    · exact ih (max a x.stop) h

lemma stop_le_maxEnd {s : Segment} {l : List Segment} (hs : s ∈ l) : s.stop ≤ maxEnd l := by
  cases l with
  | nil => simp at hs
  | cons x t =>
    rcases List.mem_cons.1 hs with h | h
    · subst h; exact le_foldl_max_stop t s.stop
    · exact mem_foldl_max_stop t x.stop h

/-! Helper lemmas about the statistical threshold. -/

lemma varQ_nonneg (l : List ℚ) : 0 ≤ varQ l := by
  unfold varQ
  apply div_nonneg
  · apply List.sum_nonneg
    intro x hx
    obtain ⟨s, _, rfl⟩ := List.mem_map.1 hx
    positivity
  · exact Nat.cast_nonneg _

/-- The rational quality-threshold test is exactly the real-number test
`score ≥ mean + 0.5 * sqrt(variance)` implemented in the source with
floats: squaring eliminates the square root. -/
lemma passesThr_iff_sqrt (m v s : ℚ) (hv : 0 ≤ v) :
    passesThr m v s = true ↔ (m : ℝ) + Real.sqrt (v : ℝ) / 2 ≤ (s : ℝ) := by
  unfold passesThr
  rw [decide_eq_true_iff]
  constructor
  · rintro ⟨hms, hv4⟩
    have h2 : Real.sqrt (v : ℝ) ≤ 2 * ((s : ℝ) - (m : ℝ)) := by
      rw [Real.sqrt_le_iff]
      constructor
      · have : (m : ℝ) ≤ (s : ℝ) := by exact_mod_cast hms
        linarith
      · have : (v : ℝ) ≤ 4 * ((s : ℝ) - (m : ℝ)) ^ 2 := by exact_mod_cast hv4
        nlinarith
    linarith
  · intro h
    have hs0 := Real.sqrt_nonneg (v : ℝ)
    have hms : (m : ℝ) ≤ (s : ℝ) := by linarith
    have h2 : Real.sqrt (v : ℝ) ≤ 2 * ((s : ℝ) - (m : ℝ)) := by linarith
    have h3 : (v : ℝ) ≤ (2 * ((s : ℝ) - (m : ℝ))) ^ 2 := by
      have hvv : Real.sqrt (v : ℝ) ^ 2 = (v : ℝ) := Real.sq_sqrt (by exact_mod_cast hv)
      nlinarith
    constructor
    · exact_mod_cast hms
    · have : (v : ℝ) ≤ 4 * ((s : ℝ) - (m : ℝ)) ^ 2 := by nlinarith
      exact_mod_cast this

lemma sum_const_list {l : List ℚ} {c : ℚ} (h : ∀ x ∈ l, x = c) :
    l.sum = l.length * c := by
  induction l with
  | nil => simp
  | cons x t ih =>
    have hx : x = c := h x (by simp)
    have ht := ih (fun y hy => h y (by simp [hy]))
    simp [hx, ht]
    ring

lemma meanQ_const {l : List ℚ} {c : ℚ} (hne : l ≠ []) (h : ∀ x ∈ l, x = c) :
    meanQ l = c := by
  unfold meanQ
  rw [sum_const_list h]
  have hlen : (l.length : ℚ) ≠ 0 := by
    have := List.length_pos.2 hne
    positivity
  field_simp

lemma varQ_const {l : List ℚ} {c : ℚ} (hne : l ≠ []) (h : ∀ x ∈ l, x = c) :
    varQ l = 0 := by
  unfold varQ
  have hz : (l.map fun s => (s - meanQ l) ^ 2).sum = 0 := by
    have : ∀ x ∈ l.map fun s => (s - meanQ l) ^ 2, x = 0 := by
      intro x hx
      obtain ⟨s, hs, rfl⟩ := List.mem_map.1 hx
      rw [h s hs, meanQ_const hne h]
      ring
    rw [sum_const_list this]
    simp
  rw [hz]
  simp

/-! Helper lemmas about clip finalization. -/

lemma clampDur_le (vd fs0 fe0 : ℚ) :
    (clampDur vd fs0 fe0).2 - (clampDur vd fs0 fe0).1 ≤ MAX_CLIP_SECONDS := by
  unfold clampDur MAX_CLIP_SECONDS TARGET_CLIP_SECONDS MIN_CLIP_SECONDS
  split
  · simp only
    have := min_le_right vd (max 0 ((fs0 + fe0) / 2 - 40 / 2) + 40)
    linarith
  · split
    · simp only
      linarith
    · simp only
      linarith [not_lt.1 (by assumption : ¬ (60 : ℚ) < fe0 - fs0)]

lemma clampDur_start_nonneg (vd fs0 fe0 : ℚ) (h : 0 ≤ fs0) :
    0 ≤ (clampDur vd fs0 fe0).1 := by
  unfold clampDur
  split
  · exact le_max_left 0 _
  · split <;> exact h

lemma clampDur_end_le (vd fs0 fe0 : ℚ) (h : fe0 ≤ vd) :
    (clampDur vd fs0 fe0).2 ≤ vd := by
  unfold clampDur MAX_CLIP_SECONDS TARGET_CLIP_SECONDS MIN_CLIP_SECONDS
  split
  · exact min_le_left vd _
  · split
    · simp only
      linarith
    · exact h

lemma finalizeFromExt_dur {vd : ℚ} {ext : List Segment} {p : ℚ × ℚ}
    (h : finalizeFromExt vd ext = some p) :
    MIN_CLIP_SECONDS ≤ p.2 - p.1 ∧ p.2 - p.1 ≤ MAX_CLIP_SECONDS := by
  unfold finalizeFromExt at h
  split at h
  · exact absurd h (by simp)
  · split at h
    · obtain rfl := Option.some.inj h
      exact ⟨by assumption, clampDur_le _ _ _⟩
    · exact absurd h (by simp)

lemma finalizeFromExt_bounds {vd : ℚ} {ext : List Segment} {p : ℚ × ℚ}
    (hstart : ∀ s ∈ ext, 0 ≤ s.start) (hstop : ∀ s ∈ ext, s.stop ≤ vd)
    (h : finalizeFromExt vd ext = some p) :
    0 ≤ p.1 ∧ p.2 ≤ vd := by
  unfold finalizeFromExt at h
  split at h
  · exact absurd h (by simp)
  · have hne : ¬ ext.isEmpty := by assumption
    split at h
    · obtain rfl := Option.some.inj h
      exact ⟨clampDur_start_nonneg _ _ _ (minStart_ge hne hstart),
        clampDur_end_le _ _ _ (maxEnd_le hne hstop)⟩
    · exact absurd h (by simp)

lemma finalizeClip_dur {segments : List Segment} {vd cs ce : ℚ} {p : ℚ × ℚ}
    (h : finalizeClip segments vd cs ce = some p) :
    MIN_CLIP_SECONDS ≤ p.2 - p.1 ∧ p.2 - p.1 ≤ MAX_CLIP_SECONDS := by
  unfold finalizeClip at h
  split at h
  · exact absurd h (by simp)
  · exact finalizeFromExt_dur h

lemma finalizeClip_bounds {segments : List Segment} {vd cs ce : ℚ} {p : ℚ × ℚ}
    (hstart : ∀ s ∈ segments, 0 ≤ s.start) (hstop : ∀ s ∈ segments, s.stop ≤ vd)
    (h : finalizeClip segments vd cs ce = some p) :
    0 ≤ p.1 ∧ p.2 ≤ vd := by
  unfold finalizeClip at h
  split at h
  · exact absurd h (by simp)
  · apply finalizeFromExt_bounds (fun s hs => hstart s ?_) (fun s hs => hstop s ?_) h
    · exact List.mem_of_mem_filter hs
    · exact List.mem_of_mem_filter hs

lemma mem_clipStep {segments : List Segment} {vd : ℚ} {acc : List (ℚ × ℚ)} {w : Window}
    {c : ℚ × ℚ} (h : c ∈ clipStep segments vd acc w) :
    c ∈ acc ∨ ∃ cs ce, finalizeClip segments vd cs ce = some c := by
  unfold clipStep at h
  split at h
  · rcases hfc : finalizeClip segments vd (tentStart vd w) (tentEnd vd w) with _ | p
    · rw [hfc] at h
      exact Or.inl h
    · rw [hfc] at h
      rcases List.mem_append.1 h with hacc | hc
      · exact Or.inl hacc
      · obtain rfl : c = p := by simpa using hc
        exact Or.inr ⟨tentStart vd w, tentEnd vd w, hfc⟩
  · exact Or.inl h

lemma mem_foldl_clipStep {segments : List Segment} {vd : ℚ} {c : ℚ × ℚ} :
    ∀ (l : List Window) (acc : List (ℚ × ℚ)),
      c ∈ l.foldl (clipStep segments vd) acc →
        c ∈ acc ∨ ∃ cs ce, finalizeClip segments vd cs ce = some c := by
  intro l
  induction l with
  | nil => exact fun acc h => Or.inl h
  | cons w t ih =>
    intro acc h
    rcases ih (clipStep segments vd acc w) h with hmem | hf
    · exact mem_clipStep hmem
    · exact Or.inr hf

lemma mem_select_clips {windows : List Window} {segments : List Segment} {c : ℚ × ℚ}
    (h : c ∈ select_clips windows segments) :
    ∃ cs ce, finalizeClip segments (maxEnd segments) cs ce = some c := by
  unfold select_clips at h
  split at h
  · simp at h
  · have h2 : c ∈ (List.insertionSort scoreDescRel (thresholdSelect windows)).foldl
        (clipStep segments (maxEnd segments)) [] :=
      (List.perm_insertionSort startAscRel _).mem_iff.1 h
    rcases mem_foldl_clipStep _ _ h2 with habs | hf
    · simp at habs
    · exact hf

/-! Helper lemmas about the coverage-backfill loop. -/

lemma pickGo_length {needed : ℕ} :
    ∀ (fb sel ex : List Highlight), sel.length < needed →
      (pickGo needed fb sel ex).length ≤ needed := by
  intro fb
  induction fb with
  | nil =>
    intro sel ex hlt
    unfold pickGo
    simpa using le_of_lt hlt
  | cons h t ih =>
    intro sel ex hlt
    unfold pickGo
    split
    · split
      · simpa using le_of_lt hlt
      · exact ih _ _ hlt
    · split
      · simpa using hlt
      · exact ih _ _ (lt_of_not_le (by assumption))

lemma pickGo_subset {needed : ℕ} {c : Highlight} :
    ∀ (fb sel ex : List Highlight), c ∈ pickGo needed fb sel ex → c ∈ sel ∨ c ∈ fb := by
  intro fb
  induction fb with
  | nil =>
    intro sel ex hc
    simp only [pickGo, List.mem_reverse] at hc
    exact Or.inl hc
  | cons h t ih =>
    intro sel ex hc
    unfold pickGo at hc
    split at hc
    · split at hc
      · rw [List.mem_reverse] at hc
        exact Or.inl hc
      · rcases ih _ _ hc with h1 | h1
        · exact Or.inl h1
        · exact Or.inr (by simp [h1])
    · split at hc
      · rw [List.mem_reverse] at hc
        rcases List.mem_cons.1 hc with h1 | h1
        · exact Or.inr (by simp [h1])
        · exact Or.inl h1
      · rcases ih _ _ hc with h1 | h1
        · rcases List.mem_cons.1 h1 with h2 | h2
          · exact Or.inr (by simp [h2])
          · exact Or.inl h2
        · exact Or.inr (by simp [h1])

lemma mem_pickFallback {needed : ℕ} {fb ex : List Highlight} {c : Highlight}
    (hc : c ∈ pickFallback needed fb ex) : c ∈ fb := by
  rcases pickGo_subset fb [] ex hc with h | h
  · simp at h
  · exact h

lemma pickFallback_length {needed : ℕ} {fb ex : List Highlight} (h : 0 < needed) :
    (pickFallback needed fb ex).length ≤ needed :=
  pickGo_length fb [] ex (by simpa using h)

lemma mem_evenlySpaced_bounds {vd : ℚ} {h : Highlight}
    (hvd : 43 ≤ vd) (hm : h ∈ evenlySpaced vd 28 110) :
    0 ≤ h.start ∧ h.stop ≤ vd - 5 ∧ h.stop - h.start = 28 := by
  unfold evenlySpaced at hm
  split at hm
  · simp at hm
  · obtain ⟨k, hk, rfl⟩ := List.mem_map.1 hm
    rw [List.mem_range] at hk
    have h10 : (10 : ℚ) ≤ max 10 (vd - 28 - 5) := le_max_left _ _
    have hls : max 10 (vd - 28 - 5) ≤ vd - 33 :=
      max_le (by linarith) (by linarith)
    have hfl : (0 : ℤ) ≤ ⌊(max 10 (vd - 28 - 5) - 10) / 110⌋ :=
      Int.floor_nonneg.2 (div_nonneg (by linarith) (by norm_num))
    have hk2 : (k : ℤ) ≤ ⌊(max 10 (vd - 28 - 5) - 10) / 110⌋ := by
      have := Nat.lt_succ_iff.1 hk
      omega
    have hk3 : (k : ℚ) ≤ (max 10 (vd - 28 - 5) - 10) / 110 := by
      calc (k : ℚ) = ((k : ℤ) : ℚ) := by push_cast; ring
      _ ≤ (⌊(max 10 (vd - 28 - 5) - 10) / 110⌋ : ℚ) := by exact_mod_cast hk2
      _ ≤ (max 10 (vd - 28 - 5) - 10) / 110 := Int.floor_le _
    have hk4 : (k : ℚ) * 110 ≤ max 10 (vd - 28 - 5) - 10 :=
      (le_div_iff₀ (by norm_num : (0:ℚ) < 110)).1 hk3
    have hk0 : (0 : ℚ) ≤ (k : ℚ) := Nat.cast_nonneg k
    refine ⟨by dsimp only; linarith, by dsimp only; linarith, by dsimp only; ring⟩

lemma mem_validOf {raw : List Highlight} {vd : ℚ} {h : Highlight}
    (hm : h ∈ validOf raw vd) :
    0 ≤ h.start ∧ h.stop ≤ vd - 5 ∧ 20 ≤ h.stop - h.start ∧ h.stop - h.start ≤ 60 := by
  unfold validOf at hm
  rw [(List.perm_insertionSort hlScoreDescRel _).mem_iff] at hm
  obtain ⟨a, _, ha⟩ := List.mem_filterMap.1 hm
  unfold clampValid at ha
  split at ha
  · have hguard : (20 : ℚ) ≤ min (vd - 5) a.stop - max 0 a.start := by assumption
    have h1 : (0 : ℚ) ≤ max 0 a.start := le_max_left _ _
    have h2 : min (vd - 5) a.stop ≤ vd - 5 := min_le_left _ _
    obtain rfl := Option.some.inj ha
    by_cases hlong : (60 : ℚ) < min (vd - 5) a.stop - max 0 a.start
    · simp only [if_pos hlong]
      refine ⟨h1, by linarith, by linarith, by linarith⟩
    · simp only [if_neg hlong]
      have h3 := not_lt.1 hlong
      refine ⟨h1, by linarith, by linarith, by linarith⟩
  · exact absurd ha (by simp)

/-! Concrete inputs used by counterexamples and witnesses. -/

/-- Transcript on which boundary snapping moves a clip back over an
already accepted one: the long middle segment `[30, 130]` drags the
snapped start of the second clip to 30, inside the first clip
`[0, 40]`. -/
def cexSegments : List Segment :=
  [⟨0, 40, "alpha"⟩, ⟨30, 130, "beta"⟩, ⟨130, 200, "gamma"⟩]

/-- Two equal-scored windows; both pass the statistical threshold
(mean 1, std 0) and are processed in order. -/
def cexWindows : List Window :=
  [⟨10, 30, "w one", 1⟩, ⟨98, 118, "w two", 1⟩]

/-- Ten windows with the identical score 1/2. -/
def ws10 : List Window :=
  (List.range 10).map fun (k : ℕ) => ⟨10 * (k : ℚ), 10 * (k : ℚ) + 20, "t", 1/2⟩

/-- One raw detector highlight, used to drive `process_highlights`. -/
def rawCex : List Highlight := [⟨-3, 100, 0.7, "audio", "x"⟩]

/-- Single window with a non-empty transcript text. -/
def wsC5 : List Window := [⟨0, 20, "hi", 1⟩]

/-! Claim theorems. -/

/-- Claim C1, counterexample: on `cexWindows`/`cexSegments` the clips
returned by `select_clips` are `(0, 40)` and `(30, 70)` — the second
starts before the first ends (`30 - 40 < 0`) and within
`MIN_GAP_SECONDS` of the first start, so the non-overlap/minimum-gap
property fails on the final boundary-snapped clips. -/
theorem select_clips_min_gap_counterexample :
    select_clips cexWindows cexSegments = [(0, 40), (30, 70)]
    ∧ ((0 : ℚ), (40 : ℚ)) ∈ select_clips cexWindows cexSegments
    ∧ ((30 : ℚ), (70 : ℚ)) ∈ select_clips cexWindows cexSegments
    ∧ (0 : ℚ) < 30
    ∧ ¬ (0 ≤ (30 : ℚ) - 40)
    ∧ ¬ (MIN_GAP_SECONDS ≤ (30 : ℚ) - 0) := by
  have he : select_clips cexWindows cexSegments = [(0, 40), (30, 70)] := by
    with_unfolding_all rfl
  refine ⟨he, by rw [he]; simp, by rw [he]; simp, by norm_num, by norm_num, ?_⟩
  unfold MIN_GAP_SECONDS
  norm_num

/-- Claim C1, amended: the minimum-gap check of `select_clips` is
enforced only on the tentative (pre-snap) clip against the clips
already accepted — `hasSufficientGap` holds exactly when every
accepted clip lies at least `MIN_GAP_SECONDS` before or after the
tentative bounds — and the returned boundary-snapped clips are sorted
by start time, but they need not respect non-overlap or the minimum
gap (see the counterexample). -/
theorem select_clips_min_gap_amended :
    (∀ (acc : List (ℚ × ℚ)) (cs ce : ℚ),
        hasSufficientGap acc cs ce = true ↔
          ∀ e ∈ acc, MIN_GAP_SECONDS ≤ cs - e.2 ∨ MIN_GAP_SECONDS ≤ e.1 - ce)
    ∧ (∀ (windows : List Window) (segments : List Segment),
        List.Sorted startAscRel (select_clips windows segments)) := by
  constructor
  · intro acc cs ce
    simp [hasSufficientGap, List.all_eq_true]
  · intro windows segments
    unfold select_clips
    split
    · simp
    · haveI : IsTotal (ℚ × ℚ) startAscRel := ⟨fun a b => le_total a.1 b.1⟩
      haveI : IsTrans (ℚ × ℚ) startAscRel := ⟨fun _ _ _ h1 h2 => le_trans h1 h2⟩
      exact List.sorted_insertionSort startAscRel _

/-- Claim C1, witness for the amended statement at the concrete
counterexample inputs. -/
theorem select_clips_min_gap_amended_witness :
    List.Sorted startAscRel (select_clips cexWindows cexSegments) :=
  select_clips_min_gap_amended.2 cexWindows cexSegments

/-- Claim C2: every clip returned by `select_clips` has positive
duration between `MIN_CLIP_SECONDS` and `MAX_CLIP_SECONDS` (30-60 s):
too-short snapped clips are re-centered toward the target length,
too-long ones truncated, and anything still shorter than 30 s is
dropped by the final length check. -/
theorem select_clips_duration_bounds (windows : List Window) (segments : List Segment)
    (c : ℚ × ℚ) (hc : c ∈ select_clips windows segments) :
    c.1 < c.2 ∧ MIN_CLIP_SECONDS ≤ c.2 - c.1 ∧ c.2 - c.1 ≤ MAX_CLIP_SECONDS := by
  obtain ⟨cs, ce, hf⟩ := mem_select_clips hc
  obtain ⟨h1, h2⟩ := finalizeClip_dur hf
  have h30 : (30 : ℚ) ≤ c.2 - c.1 := h1
  exact ⟨by linarith, h1, h2⟩

/-- Claim C2, witness: the clip `(0, 40)` returned on the concrete
inputs has duration 40, within bounds. -/
theorem select_clips_duration_bounds_witness :
    (0 : ℚ) < 40 ∧ MIN_CLIP_SECONDS ≤ (40 : ℚ) - 0 ∧ (40 : ℚ) - 0 ≤ MAX_CLIP_SECONDS :=
  select_clips_duration_bounds cexWindows cexSegments ((0 : ℚ), (40 : ℚ))
    (by with_unfolding_all decide)

/-- Claim C3: an empty transcript yields `ok []` for every embedding
collaborator (so the scorer — which would raise on a missing key — is
never consulted); any transcript whose segments produce no windows
also short-circuits to `ok []`; and segments whose text contains no
whitespace tokens produce no windows at all. -/
theorem detect_highlights_empty_input
    (collab : Option (List String → List (List ℚ))) (sqrtQ : ℚ → ℚ) :
    detect_highlights [] collab sqrtQ = .ok []
    ∧ (∀ segments : List Segment, split_into_windows segments = [] →
        detect_highlights segments collab sqrtQ = .ok [])
    ∧ (∀ segments : List Segment, (∀ s ∈ segments, pySplit s.text = []) →
        split_into_windows segments = []) := by
  refine ⟨rfl, ?_, ?_⟩
  · intro segments hw
    unfold detect_highlights
    split
    · rfl
    · simp [hw]
  · intro segments hall
    have hwords : segments.flatMap segWords = [] := by
      rw [List.flatMap_eq_nil_iff]
      intro s hs
      unfold segWords
      rw [hall s hs]
      simp
    simp [split_into_windows, hwords]

/-- Claim C3, witness: a transcript with one whitespace-only segment
returns `ok []` even with the collaborator unavailable. -/
theorem detect_highlights_empty_input_witness :
    detect_highlights [⟨0, 5, "   "⟩] none (fun _ => 0) = .ok [] := by
  apply (detect_highlights_empty_input none (fun _ => 0)).2.1
  with_unfolding_all rfl

/-- Claim C4, counterexample: with the embedding collaborator
unavailable, `score_windows` does not produce partial scores — it
raises (`RuntimeError("Set OPENAI_API_KEY in your environment")`,
line 85), so no narrative/density score is computed for any window. -/
theorem score_windows_unavailable_counterexample :
    (score_windows none (fun _ => 0) [⟨0, 20, "hello", 0⟩]).isOk = false
    ∧ score_windows none (fun _ => 0) [⟨0, 20, "hello", 0⟩]
        = .error "Set OPENAI_API_KEY in your environment" :=
  ⟨rfl, rfl⟩

/-- Claim C4, amended: when the embedding collaborator is unavailable,
`score_windows` raises for every window list instead of degrading to a
partial narrative/density score; graceful degradation exists only in
the other detector (`HighlightDetector.detect` catches the failure and
falls back to audio/motion/backfill candidates). -/
theorem score_windows_unavailable_raises (sqrtQ : ℚ → ℚ) (windows : List Window) :
    score_windows none sqrtQ windows = .error "Set OPENAI_API_KEY in your environment" :=
  rfl

/-- Claim C5: the threshold phase of `select_clips` keeps exactly the
windows scoring at least `mean + 0.5 * std` (the rational test is
equivalent to the real-number threshold with `Real.sqrt`); the
top-20 %-minimum-1 fallback is used if and only if that selection is
empty; and for every non-empty window list the selected set is
non-empty. -/
theorem threshold_selector_spec (windows : List Window) :
    (∀ w : Window,
        passesThr (meanQ (windows.map Window.score)) (varQ (windows.map Window.score)) w.score
            = true ↔
          ((meanQ (windows.map Window.score) : ℝ)
              + Real.sqrt ((varQ (windows.map Window.score) : ℚ) : ℝ) / 2 ≤ (w.score : ℝ)))
    ∧ ((windows.filter fun w =>
          passesThr (meanQ (windows.map Window.score)) (varQ (windows.map Window.score))
            w.score) ≠ [] →
        thresholdSelect windows = windows.filter fun w =>
          passesThr (meanQ (windows.map Window.score)) (varQ (windows.map Window.score)) w.score)
    ∧ ((windows.filter fun w =>
          passesThr (meanQ (windows.map Window.score)) (varQ (windows.map Window.score))
            w.score) = [] →
        thresholdSelect windows
          = (List.insertionSort scoreDescRel windows).take (max 1 (windows.length / 5)))
    ∧ (windows ≠ [] → thresholdSelect windows ≠ []) := by
  refine ⟨fun w => passesThr_iff_sqrt _ _ _ (varQ_nonneg _), ?_, ?_, ?_⟩
  · intro hne
    unfold thresholdSelect
    rw [if_neg (by simpa [List.isEmpty_iff] using hne)]
  · intro heq
    unfold thresholdSelect
    rw [if_pos (by simpa [List.isEmpty_iff] using heq)]
  · intro hw
    by_cases hf : (windows.filter fun w =>
        passesThr (meanQ (windows.map Window.score)) (varQ (windows.map Window.score))
          w.score) = []
    · unfold thresholdSelect
      rw [if_pos (by simpa [List.isEmpty_iff] using hf)]
      apply List.ne_nil_of_length_pos
      rw [List.length_take, List.length_insertionSort]
      have hlen : 0 < windows.length := List.length_pos.2 hw
      omega
    · unfold thresholdSelect
      rw [if_neg (by simpa [List.isEmpty_iff] using hf)]
      exact hf

/-- Claim C5, witness: a single-window list yields a non-empty quality
selection. -/
theorem threshold_selector_spec_witness : thresholdSelect wsC5 ≠ [] :=
  (threshold_selector_spec wsC5).2.2.2 (by with_unfolding_all decide)

/-- Claim C6, counterexample: on ten windows of identical score the
statistical threshold `mean + 0.5 * std` equals the common score
(std = 0), so the threshold tier selects all ten windows — the
selection is non-empty and the top-20 % fallback path (which would
return only 2 windows) is not exercised. -/
theorem threshold_uniform_counterexample :
    (ws10.filter fun w =>
        passesThr (meanQ (ws10.map Window.score)) (varQ (ws10.map Window.score)) w.score)
      = ws10
    ∧ thresholdSelect ws10 = ws10
    ∧ ws10.length = 10
    ∧ ((List.insertionSort scoreDescRel ws10).take (max 1 (ws10.length / 5))).length = 2 := by
  exact ⟨by with_unfolding_all rfl, by with_unfolding_all rfl,
    by with_unfolding_all rfl, by with_unfolding_all rfl⟩

/-- Claim C6, amended: a list of windows with identical scores (in
particular the ten-window input) still yields at least one selected
candidate, but through the statistical-threshold tier, which selects
all of them (mean equals the common score and the variance is zero);
the top-20 % fallback path is not taken on this input. -/
theorem threshold_uniform_amended (windows : List Window) (c : ℚ)
    (hne : windows ≠ []) (hall : ∀ w ∈ windows, w.score = c) :
    thresholdSelect windows = windows := by
  have hmap : ∀ x ∈ windows.map Window.score, x = c := by
    intro x hx
    obtain ⟨w, hw, rfl⟩ := List.mem_map.1 hx
    exact hall w hw
  have hmne : windows.map Window.score ≠ [] := by
    simpa [List.map_eq_nil_iff] using hne
  have hm := meanQ_const hmne hmap
  have hv := varQ_const hmne hmap
  have hfilt : (windows.filter fun w =>
      passesThr (meanQ (windows.map Window.score)) (varQ (windows.map Window.score))
        w.score) = windows := by
    apply List.filter_eq_self.2
    intro w hw
    rw [hm, hv]
    unfold passesThr
    rw [hall w hw, decide_eq_true_iff]
    exact ⟨le_refl c, by positivity⟩
  simp only [thresholdSelect]
  rw [hfilt, if_neg (by simpa [List.isEmpty_iff] using hne)]

/-- Claim C6, witness: on the concrete ten identical-score windows the
selection is all ten windows. -/
theorem threshold_uniform_amended_witness : thresholdSelect ws10 = ws10 :=
  threshold_uniform_amended ws10 (1/2) (by with_unfolding_all decide)
    (by with_unfolding_all decide)

/-- Claim C7: under the precondition that every transcript segment
starts at a non-negative time (their ends are at most the maximum
segment end by construction), every clip returned by `select_clips`
satisfies `0 ≤ start` and `end ≤ videoDuration`, where `videoDuration`
is the maximum segment end — out-of-bounds tentative or extended clips
are clamped, not propagated. -/
theorem select_clips_containment (windows : List Window) (segments : List Segment)
    (hstart : ∀ s ∈ segments, 0 ≤ s.start) (c : ℚ × ℚ)
    (hc : c ∈ select_clips windows segments) :
    0 ≤ c.1 ∧ c.2 ≤ maxEnd segments := by
  obtain ⟨cs, ce, hf⟩ := mem_select_clips hc
  exact finalizeClip_bounds hstart (fun s hs => stop_le_maxEnd hs) hf

/-- Claim C7, witness: the clip `(0, 40)` on the concrete inputs lies
inside `[0, 200]`. -/
theorem select_clips_containment_witness :
    0 ≤ (0 : ℚ) ∧ (40 : ℚ) ≤ maxEnd cexSegments :=
  select_clips_containment cexWindows cexSegments (by with_unfolding_all decide)
    ((0 : ℚ), (40 : ℚ)) (by with_unfolding_all decide)

/-- Claim C8: on the non-empty-input path, `_process_highlights` caps
its result at `desiredCount = clamp(videoDuration / 120, 8, 100)`
(`desiredMax`); when at least `desiredCount` highlights survive
validation the backfill contributes nothing; and the backfill loop
admits at most `needed` windows, all drawn from the evenly spaced
fallback supply (stopping at `desiredCount` or on exhaustion). -/
theorem process_highlights_backfill_cap (raw : List Highlight) (vd : ℚ) (hraw : raw ≠ []) :
    (process_highlights raw vd).length ≤ desiredMax vd
    ∧ (desiredMax vd ≤ (validOf raw vd).length →
        process_highlights raw vd
          = (List.insertionSort hlFinalRel (validOf raw vd)).take (desiredMax vd))
    ∧ (∀ (needed : ℕ) (fb ex : List Highlight), 0 < needed →
        (pickFallback needed fb ex).length ≤ needed)
    ∧ (∀ (needed : ℕ) (fb ex : List Highlight) (h : Highlight),
        h ∈ pickFallback needed fb ex → h ∈ fb) := by
  refine ⟨?_, ?_, fun _ _ _ h => pickFallback_length h, fun _ _ _ _ h => mem_pickFallback h⟩
  · unfold process_highlights
    rw [if_neg (by simpa [List.isEmpty_iff] using hraw)]
    rw [List.length_take]
    exact min_le_left _ _
  · intro hge
    unfold process_highlights
    rw [if_neg (by simpa [List.isEmpty_iff] using hraw), if_neg (not_lt.2 hge)]

/-- Claim C8, witness: on a single raw highlight and a 600 s video the
result length respects the cap `desiredMax 600 = 8`. -/
theorem process_highlights_backfill_cap_witness :
    (process_highlights rawCex 600).length ≤ desiredMax 600 :=
  (process_highlights_backfill_cap rawCex 600 (List.cons_ne_nil _ _)).1

/-- Claim C9: on the non-exception path with non-empty raw highlights
and a video of at least 60 s, every returned highlight satisfies
`0 ≤ start`, `end ≤ videoDuration - 5` (the 5 s end-of-video buffer)
and `20 ≤ end - start ≤ 60` (clips over 60 s are cut to 55 s, clips
under 20 s are discarded). -/
theorem process_highlights_bounds (raw : List Highlight) (vd : ℚ) (hraw : raw ≠ [])
    (hvd : 60 ≤ vd) (h : Highlight) (hm : h ∈ process_highlights raw vd) :
    0 ≤ h.start ∧ h.stop ≤ vd - 5 ∧ 20 ≤ h.stop - h.start ∧ h.stop - h.start ≤ 60 := by
  unfold process_highlights at hm
  rw [if_neg (by simpa [List.isEmpty_iff] using hraw)] at hm
  have hm2 := List.take_subset _ _ hm
  rw [(List.perm_insertionSort hlFinalRel _).mem_iff] at hm2
  by_cases hlt : (validOf raw vd).length < desiredMax vd
  · rw [if_pos hlt] at hm2
    rcases List.mem_append.1 hm2 with hv | hp
    · exact mem_validOf hv
    · have hfb := mem_pickFallback hp
      obtain ⟨h1, h2, h3⟩ := mem_evenlySpaced_bounds (by linarith) hfb
      exact ⟨h1, h2, by linarith, by linarith⟩
  · rw [if_neg hlt] at hm2
    exact mem_validOf hm2

/-- Claim C9, witness: the highlight `(0, 55)` returned on the
concrete input satisfies all the bounds for the 600 s video. -/
theorem process_highlights_bounds_witness :
    0 ≤ (0 : ℚ) ∧ (55 : ℚ) ≤ 600 - 5 ∧ 20 ≤ (55 : ℚ) - 0 ∧ (55 : ℚ) - 0 ≤ 60 :=
  process_highlights_bounds rawCex 600 (List.cons_ne_nil _ _) (by norm_num)
    ⟨0, 55, 0.7, "audio", "x"⟩ (by with_unfolding_all decide)

/-- Claim C10: every candidate returned by the AI-transcript path
satisfies `0 ≤ start < end ≤ videoDuration - 1` and
`10 ≤ end - start ≤ 55`; at most 40 candidates are returned; and a
malformed LLM entry is silently skipped (the result is the same list,
possibly empty, with no exception). -/
theorem ai_transcript_candidates_valid (vd : ℚ) (ws : List RawWin) :
    (∀ h ∈ detectWithAiTranscript vd ws,
        0 ≤ h.start ∧ h.start < h.stop ∧ h.stop ≤ vd - 1
          ∧ 10 ≤ h.stop - h.start ∧ h.stop - h.start ≤ 55)
    ∧ (detectWithAiTranscript vd ws).length ≤ 40
    ∧ detectWithAiTranscript vd (.bad :: ws) = detectWithAiTranscript vd ws := by
  refine ⟨?_, ?_, rfl⟩
  · intro h hm
    unfold detectWithAiTranscript at hm
    have hm2 := List.take_subset _ _ hm
    obtain ⟨a, _, ha⟩ := List.mem_filterMap.1 hm2
    cases a with
    | bad => exact absurd ha (by simp [aiClampOne])
    | good s0 e0 =>
      simp only [aiClampOne] at ha
      split at ha
      · obtain rfl := Option.some.inj ha
        rename_i hcond
        obtain ⟨hlt, h10, h55⟩ := hcond
        have hs0 : (0 : ℚ) ≤ max 0 s0 := le_max_left _ _
        have he0 : min (vd - 1) e0 ≤ vd - 1 := min_le_left _ _
        exact ⟨hs0, hlt, he0, h10, h55⟩
      · exact absurd ha (by simp)
  · unfold detectWithAiTranscript
    rw [List.length_take]
    exact min_le_left _ _

/-- Claim C10, witness: on a reply with one well-formed window, one
malformed entry and one inverted window, the surviving candidate
`(0, 30)` satisfies all the bounds. -/
theorem ai_transcript_candidates_valid_witness :
    0 ≤ (0 : ℚ) ∧ (0 : ℚ) < 30 ∧ (30 : ℚ) ≤ 600 - 1 ∧ 10 ≤ (30 : ℚ) - 0
      ∧ (30 : ℚ) - 0 ≤ 55 :=
  (ai_transcript_candidates_valid 600 [.good 0 30, .bad, .good 100 90]).1
    ⟨0, 30, 0.9, "ai", "AI-selected highlight"⟩ (by with_unfolding_all decide)

end VCA
